import Mathlib

/-!
Verification development for the document-retrieval subsystem in
`src/retriever.py` (classes `DocumentRetriever` and `SemanticRetriever`),
its callers in `src/approaches.py`, and the Reciprocal Rank Fusion scheme
described in the design document.

External libraries (`rank_bm25.BM25Okapi`, `sentence_transformers`) are not
part of the repository; their numeric scoring functions are abstracted as a
`scorer` parameter that may fail (`Option`), mirroring the `try/except`
around the scoring body.  Scores are modelled as rationals.
-/

/-- Python `str.lower()` restricted to ASCII case folding (the inputs of
interest are ASCII; `Char.toLower` matches Python there). -/
def pyLower (s : String) : String := String.mk (s.toList.map Char.toLower)

/-- Python `s.split(" ")` on a character list: split at every single space
character, keeping empty pieces between consecutive separators
(`"".split(" ") == [""]`, `"a  b".split(" ") == ["a","","b"]`). -/
def pySplitSpaceAux : List Char → List (List Char)
  | [] => [[]]
  | c :: cs =>
    match pySplitSpaceAux cs with
    | [] => [[]]
    | t :: ts => if c = ' ' then [] :: t :: ts else (c :: t) :: ts

/-- Python `s.split(" ")` on a string. -/
def pySplitSpace (s : String) : List String :=
  (pySplitSpaceAux s.toList).map List.asString

/-- `item.lower().split(" ")` — the tokenization used at
`retriever.py` lines 59-60 and 110-111. -/
def tokenizePy (s : String) : List String := pySplitSpace (pyLower s)

/-- Splitting on arbitrary whitespace characters, keeping empty pieces
(helper for the spec-side tokenizer). -/
def wsSplitAux : List Char → List (List Char)
  | [] => [[]]
  | c :: cs =>
    match wsSplitAux cs with
    | [] => [[]]
    | t :: ts => if c.isWhitespace then [] :: t :: ts else (c :: t) :: ts

/-- Modelled from the spec: "tokenize each indexable text and the query into
case-folded word tokens (whitespace-delimited)", i.e. the lower-cased maximal
non-whitespace runs of the string. -/
def tokenizeSpec (s : String) : List String :=
  ((wsSplitAux (pyLower s).toList).filter (fun t => t ≠ [])).map List.asString

/-- Joins token character lists with single spaces (inverse of
`pySplitSpaceAux`). -/
def joinSpaceChars : List (List Char) → List Char
  | [] => []
  | [t] => t
  | t :: t' :: ts => t ++ ' ' :: joinSpaceChars (t' :: ts)

/-- The index order realised by `np.argsort(scores)` (stable ascending sort,
as numpy produces on these inputs): index `i` precedes `j` when its score is
smaller, or scores are equal and `i ≤ j`. -/
def argLE (scores : List ℚ) (i j : ℕ) : Prop :=
  scores.getD i 0 < scores.getD j 0 ∨ (scores.getD i 0 = scores.getD j 0 ∧ i ≤ j)

instance (scores : List ℚ) : DecidableRel (argLE scores) := fun i j => by
  unfold argLE; infer_instance

instance (scores : List ℚ) : IsTotal ℕ (argLE scores) := by
  constructor
  intro i j
  rcases lt_trichotomy (scores.getD i 0) (scores.getD j 0) with h | h | h
  · exact Or.inl (Or.inl h)
  · rcases Nat.le_total i j with hij | hij
    · exact Or.inl (Or.inr ⟨h, hij⟩)
    · exact Or.inr (Or.inr ⟨h.symm, hij⟩)
  · exact Or.inr (Or.inl h)

instance (scores : List ℚ) : IsTrans ℕ (argLE scores) := by
  constructor
  intro i j k hij hjk
  rcases hij with h1 | ⟨h1, h1'⟩
  · rcases hjk with h2 | ⟨h2, _⟩
    · exact Or.inl (h1.trans h2)
    · exact Or.inl (h2 ▸ h1)
  · rcases hjk with h2 | ⟨h2, h2'⟩
    · exact Or.inl (h1 ▸ h2)
    · exact Or.inr ⟨h1.trans h2, h1'.trans h2'⟩

instance (scores : List ℚ) : IsAntisymm ℕ (argLE scores) := by
  constructor
  intro i j hij hji
  rcases hij with h1 | ⟨h1, h1'⟩
  · rcases hji with h2 | ⟨h2, _⟩
    · exact absurd (h1.trans h2) (lt_irrefl _)
    · exact absurd h1 (h2 ▸ lt_irrefl _)
  · rcases hji with h2 | ⟨h2, h2'⟩
    · exact absurd h2 (h1 ▸ lt_irrefl _)
    · exact Nat.le_antisymm h1' h2'

/-- `np.argsort(scores)`: the indices `0, …, n-1` stably sorted by ascending
score. -/
def argsortAsc (scores : List ℚ) : List ℕ :=
  List.insertionSort (argLE scores) (List.range scores.length)

/-- `np.argsort(scores)[::-1]`: descending scores; equal scores end up in
reverse original order because the ascending stable sort is reversed. -/
def argsortDesc (scores : List ℚ) : List ℕ := (argsortAsc scores).reverse

/-- The configuration stored by `DocumentRetriever.__init__`
(`retriever.py` lines 20-31): plain attribute assignment, no validation. -/
structure DocumentRetriever where
  top_k : ℕ
  use_full_content : Bool

/-- `DocumentRetriever.__init__(top_k, use_full_content)`: stores the fields
unchanged; the constructor performs no check and cannot fail. -/
def DocumentRetriever.mkPy (top_k : ℕ) (use_full_content : Bool) :
    DocumentRetriever := ⟨top_k, use_full_content⟩

/-- `DocumentRetriever.retrieve` (`retriever.py` lines 33-84).  `scorer`
abstracts `BM25Okapi(tokenized_texts).get_scores(tokenized_event)`; `none`
models the scoring body raising (the `except` path, which returns
`documents[:top_k]`).  In the `use_full_content` branch the source calls
`bm25.get_top_n`, which `rank_bm25` implements as exactly
`np.argsort(scores)[::-1][:n]` mapped over the given documents, so both
branches share the index computation. -/
def DocumentRetriever.retrieve (self : DocumentRetriever)
    (scorer : List (List String) → List String → Option (List ℚ))
    (event : String) (title_snippet documents : List String) : List String :=
  if documents.isEmpty then []
  else if documents.length ≤ self.top_k then documents
  else
    let texts_to_index := if self.use_full_content then documents else title_snippet
    let tokenized_texts := texts_to_index.map tokenizePy
    let tokenized_event := tokenizePy event
    match scorer tokenized_texts tokenized_event with
    | some scores =>
        ((argsortDesc scores).take self.top_k).map (fun i => documents.getD i "")
    | none => documents.take self.top_k

/-- `DocumentRetriever.retrieve_with_scores` (`retriever.py` lines 87-131):
no small-corpus shortcut; on failure returns `[(doc, 0.0), …]` over
`documents[:top_k]`. -/
def DocumentRetriever.retrieve_with_scores (self : DocumentRetriever)
    (scorer : List (List String) → List String → Option (List ℚ))
    (event : String) (title_snippet documents : List String) :
    List (String × ℚ) :=
  if documents.isEmpty then []
  else
    let texts_to_index := if self.use_full_content then documents else title_snippet
    let tokenized_texts := texts_to_index.map tokenizePy
    let tokenized_event := tokenizePy event
    match scorer tokenized_texts tokenized_event with
    | some scores =>
        ((argsortDesc scores).take self.top_k).map
          (fun i => (documents.getD i "", scores.getD i 0))
    | none => (documents.take self.top_k).map (fun d => (d, 0))

/-- The configuration stored by `SemanticRetriever.__init__` (model loading
is external and abstracted away). -/
structure SemanticRetriever where
  top_k : ℕ
  use_full_content : Bool

/-- `SemanticRetriever.retrieve` (`retriever.py` lines 181-235).  `sim`
abstracts encoding the texts and the event and taking normalized dot
products; `none` models model-inference failure (the `except` path). -/
def SemanticRetriever.retrieve (self : SemanticRetriever)
    (sim : List String → String → Option (List ℚ))
    (event : String) (title_snippet documents : List String) : List String :=
  if documents.isEmpty then []
  else if documents.length ≤ self.top_k then documents
  else
    let texts_to_index := if self.use_full_content then documents else title_snippet
    match sim texts_to_index event with
    | some similarities =>
        ((argsortDesc similarities).take self.top_k).map (fun i => documents.getD i "")
    | none => documents.take self.top_k

/-- The common result shape shared by both `retrieve` bodies once the scorer
outcome is fixed (proof-side factoring; each `retrieve` unfolds to this by
definitional equality). -/
def rankCore (k : ℕ) (documents : List String) (scoresOpt : Option (List ℚ)) :
    List String :=
  if documents.isEmpty then []
  else if documents.length ≤ k then documents
  else
    match scoresOpt with
    | some scores =>
        ((argsortDesc scores).take k).map (fun i => documents.getD i "")
    | none => documents.take k

/-- Positional parameters of `DocumentRetriever.retrieve` as defined at
`retriever.py` line 33 (excluding `self`). -/
def retrieveParams : List String := ["event", "title_snippet", "documents"]

/-- Number of parameters of `DocumentRetriever.retrieve` carrying default
values: none. -/
def retrieveDefaultCount : ℕ := 0

/-- Parameters of the public contract `retrieve(event, short_texts,
full_texts, options=None)` as the design document states it. -/
def specRetrieveParams : List String :=
  ["event", "short_texts", "full_texts", "options"]

/-- Default count for the design-document signature (`options=None`). -/
def specRetrieveDefaultCount : ℕ := 1

/-- Python positional call binding: a call with `nargs` positional arguments
is accepted iff every non-default parameter is covered and no extra argument
remains. -/
def pyCallAccepted (params : List String) (defaults nargs : ℕ) : Bool :=
  decide (params.length - defaults ≤ nargs) && decide (nargs ≤ params.length)

/-- Number of positional arguments passed at every approach call site, e.g.
`approaches.py` line 151:
`self.retriever.retrieve(item.event, item.title_snippet, item.documents, item.options)`. -/
def approachCallArgCount : ℕ := 4

/-- Modelled from the spec: Reciprocal Rank Fusion score of `doc` under
`rankings` (pairs of a full ordered document list and a weight): a document
at 1-indexed rank `r` in a ranking of weight `w` contributes `w / (rrf_k + r)`;
contributions are summed across rankings and a document absent from a ranking
contributes nothing from it.  The `FusionRanker` component exists only in the
design document; no fusion code is present under `src/`. -/
def rrfScore (rrf_k : ℚ) (rankings : List (List String × ℚ)) (doc : String) : ℚ :=
  (rankings.map (fun p =>
    match p.1.findIdx? (fun d => d = doc) with
    | some idx => p.2 / (rrf_k + (idx + 1 : ℕ))
    | none => 0)).sum

/-! ### Basic facts about the argsort model -/

theorem argsortAsc_perm (scores : List ℚ) :
    List.Perm (argsortAsc scores) (List.range scores.length) :=
  List.perm_insertionSort _ _

theorem argsortDesc_perm (scores : List ℚ) :
    List.Perm (argsortDesc scores) (List.range scores.length) :=
  (List.reverse_perm _).trans (argsortAsc_perm scores)

theorem argsortDesc_nodup (scores : List ℚ) : (argsortDesc scores).Nodup :=
  ((argsortDesc_perm scores).symm.nodup (List.nodup_range _))

theorem length_argsortDesc (scores : List ℚ) :
    (argsortDesc scores).length = scores.length := by
  simpa using (argsortDesc_perm scores).length_eq

theorem mem_argsortDesc (scores : List ℚ) (i : ℕ) :
    i ∈ argsortDesc scores ↔ i < scores.length := by
  rw [(argsortDesc_perm scores).mem_iff, List.mem_range]

/-- Mapping Python indexing over `range k` recovers `take k`. -/
theorem map_getD_range (docs : List String) (k : ℕ) (hk : k ≤ docs.length) :
    (List.range k).map (fun i => docs.getD i "") = docs.take k := by
  apply List.ext_getElem
  · simp [Nat.min_eq_left hk]
  · intro i h1 h2
    have hik : i < k := by simpa using h1
    have hin : i < docs.length := lt_of_lt_of_le hik hk
    rw [List.getElem_map, List.getElem_take, List.getElem_range]
    exact List.getD_eq_getElem _ _ hin

/-! ### C2 -/

/-- C2: for both retrievers, an empty corpus yields the empty list and a
corpus of size at most `top_k` is returned unchanged, in original order, for
every scorer (so in particular without consulting the scorer). -/
theorem C2_small_corpus_shortcut (dr : DocumentRetriever) (sr : SemanticRetriever)
    (scorer : List (List String) → List String → Option (List ℚ))
    (sim : List String → String → Option (List ℚ))
    (event : String) (title_snippet documents : List String) :
    (documents = [] →
      dr.retrieve scorer event title_snippet documents = [] ∧
      sr.retrieve sim event title_snippet documents = []) ∧
    (documents.length ≤ dr.top_k →
      dr.retrieve scorer event title_snippet documents = documents) ∧
    (documents.length ≤ sr.top_k →
      sr.retrieve sim event title_snippet documents = documents) := by
  refine ⟨fun h => ?_, fun h => ?_, fun h => ?_⟩
  · subst h; simp [DocumentRetriever.retrieve, SemanticRetriever.retrieve]
  · unfold DocumentRetriever.retrieve
    by_cases he : documents.isEmpty
    · rw [if_pos he, List.isEmpty_iff.mp he]
    · rw [if_neg he, if_pos h]
  · unfold SemanticRetriever.retrieve
    by_cases he : documents.isEmpty
    · rw [if_pos he, List.isEmpty_iff.mp he]
    · rw [if_neg he, if_pos h]

/-- C2 witness: the shortcut evaluated at concrete inputs. -/
theorem C2_small_corpus_shortcut_witness :
    DocumentRetriever.retrieve ⟨3, false⟩ (fun _ _ => none) "e" ["t1", "t2"]
      ["a", "b"] = ["a", "b"] :=
  (C2_small_corpus_shortcut ⟨3, false⟩ ⟨3, false⟩ (fun _ _ => none)
    (fun _ _ => none) "e" ["t1", "t2"] ["a", "b"]).2.1 (by decide)

/-! ### C1 -/

/-- C1: every approach calls
`retrieve(item.event, item.title_snippet, item.documents, item.options)`
with four positional arguments, but `DocumentRetriever.retrieve` declares only
three parameters with no defaults, so the call is rejected (Python raises
`TypeError`); under the design document's signature
`retrieve(event, short_texts, full_texts, options=None)` the same call would
be accepted. -/
theorem C1_retrieve_call_arity :
    pyCallAccepted retrieveParams retrieveDefaultCount approachCallArgCount = false ∧
    pyCallAccepted specRetrieveParams specRetrieveDefaultCount approachCallArgCount = true := by
  decide

/-! ### C4 -/

/-- C4 counterexample: when the scoring body fails, the caller receives the
plain document list `documents[:top_k]` — byte-for-byte the same value a
successful scorer can return — not a sentinel "failed" indicator. -/
theorem C4_counterexample :
    DocumentRetriever.retrieve ⟨2, false⟩ (fun _ _ => none) "e"
      ["t1", "t2", "t3"] ["a", "b", "c"] = ["a", "b"] ∧
    DocumentRetriever.retrieve ⟨2, false⟩ (fun _ _ => some [3, 2, 1]) "e"
      ["t1", "t2", "t3"] ["a", "b", "c"] = ["a", "b"] ∧
    SemanticRetriever.retrieve ⟨2, false⟩ (fun _ _ => none) "e"
      ["t1", "t2", "t3"] ["a", "b", "c"] = ["a", "b"] := by
  refine ⟨by decide, by decide, by decide⟩

/-- On scoring failure the lexical retriever returns the first `top_k`
documents (shared helper). -/
theorem doc_retrieve_none (dr : DocumentRetriever)
    (event : String) (title_snippet documents : List String) :
    dr.retrieve (fun _ _ => none) event title_snippet documents =
      documents.take dr.top_k := by
  unfold DocumentRetriever.retrieve
  by_cases he : documents.isEmpty
  · rw [if_pos he]
    rw [List.isEmpty_iff] at he
    simp [he]
  · rw [if_neg he]
    by_cases hlen : documents.length ≤ dr.top_k
    · rw [if_pos hlen, List.take_of_length_le hlen]
    · rw [if_neg hlen]

/-- On inference failure the semantic retriever returns the first `top_k`
documents (shared helper). -/
theorem sem_retrieve_none (sr : SemanticRetriever)
    (event : String) (title_snippet documents : List String) :
    sr.retrieve (fun _ _ => none) event title_snippet documents =
      documents.take sr.top_k := by
  unfold SemanticRetriever.retrieve
  by_cases he : documents.isEmpty
  · rw [if_pos he]
    rw [List.isEmpty_iff] at he
    simp [he]
  · rw [if_neg he]
    by_cases hlen : documents.length ≤ sr.top_k
    · rw [if_pos hlen, List.take_of_length_le hlen]
    · rw [if_neg hlen]

/-- C4 amended: a failure inside the scoring body is caught and never
propagated, and the caller receives the first `top_k` corpus documents in
original order — an ordinary document list, not a sentinel failure value. -/
theorem C4_failure_is_caught (dr : DocumentRetriever) (sr : SemanticRetriever)
    (event : String) (title_snippet documents : List String) :
    dr.retrieve (fun _ _ => none) event title_snippet documents =
      documents.take dr.top_k ∧
    sr.retrieve (fun _ _ => none) event title_snippet documents =
      documents.take sr.top_k :=
  ⟨doc_retrieve_none dr event title_snippet documents,
   sem_retrieve_none sr event title_snippet documents⟩

/-! ### C7 -/

/-- C7 counterexample: `DocumentRetriever.__init__` accepts `top_k = 0`
without any validation (it merely stores the fields), and retrieval then
proceeds silently, returning the empty list — no error is raised anywhere. -/
theorem C7_counterexample :
    (DocumentRetriever.mkPy 0 false).top_k = 0 ∧
    (DocumentRetriever.mkPy 0 false).retrieve (fun _ _ => some [1, 2]) "e"
      ["t1", "t2"] ["a", "b"] = [] := by
  refine ⟨rfl, by decide⟩

/-- C7 amended: constructing the retriever with `top_k ≤ 0` is not rejected —
the constructor stores the value unchanged and retrieval proceeds without
error; with `top_k = 0` it returns the empty list for every corpus and every
scorer (the CLI separately substitutes 10 for non-positive `top_k` before
construction, so no validation ever runs). -/
theorem C7_no_validation (use_full_content : Bool)
    (scorer : List (List String) → List String → Option (List ℚ))
    (event : String) (title_snippet documents : List String) :
    (DocumentRetriever.mkPy 0 use_full_content).top_k = 0 ∧
    (DocumentRetriever.mkPy 0 use_full_content).retrieve scorer event
      title_snippet documents = [] := by
  refine ⟨rfl, ?_⟩
  unfold DocumentRetriever.retrieve DocumentRetriever.mkPy
  by_cases he : documents.isEmpty
  · rw [if_pos he]
  · rw [if_neg he]
    have hne : documents ≠ [] := by
      simpa [List.isEmpty_iff] using he
    have : ¬ documents.length ≤ 0 := by
      simpa [Nat.le_zero, List.length_eq_zero] using hne
    rw [if_neg this]
    split <;> simp <;> split <;> rfl

/-! ### C5 -/

/-- C5 counterexample: with equal scores 5, 5 for the first two documents
(and 1 for the third, `top_k = 2`), `np.argsort(scores)[::-1]` places the
*later* document first: the result is `["b", "a"]`, not the claimed
original-order `["a", "b"]`. -/
theorem C5_counterexample :
    DocumentRetriever.retrieve ⟨2, false⟩ (fun _ _ => some [5, 5, 1]) "ev"
      ["s1", "s2", "s3"] ["a", "b", "c"] = ["b", "a"] ∧
    (["b", "a"] : List String) ≠ ["a", "b"] :=
  ⟨by decide, by decide⟩

/-- C5 amended: both retrievers rank by `argsortDesc`, which orders indices
by strictly descending score and breaks equal scores in *reverse* original
corpus order (the later document appears earlier), because the stable
ascending argsort is reversed; the ranking is a permutation of all corpus
positions. -/
theorem C5_ranking_descending_ties_reversed (scores : List ℚ) :
    List.Pairwise (fun i j =>
      scores.getD j 0 < scores.getD i 0 ∨
      (scores.getD i 0 = scores.getD j 0 ∧ j < i)) (argsortDesc scores) ∧
    List.Perm (argsortDesc scores) (List.range scores.length) := by
  refine ⟨?_, argsortDesc_perm scores⟩
  have hs : List.Pairwise (argLE scores) (argsortAsc scores) :=
    List.sorted_insertionSort _ _
  have hnd : List.Pairwise (fun i j : ℕ => i ≠ j) (argsortAsc scores) :=
    (argsortAsc_perm scores).symm.nodup (List.nodup_range _)
  unfold argsortDesc
  rw [List.pairwise_reverse]
  refine (hs.and hnd).imp ?_
  intro a b hab
  rcases hab with ⟨h1 | ⟨heq, hle⟩, hne⟩
  · exact Or.inl h1
  · exact Or.inr ⟨heq.symm, lt_of_le_of_ne hle hne⟩

/-! ### C8 -/

/-- C8: under the spec's Reciprocal Rank Fusion with weights 2 and 1 and
`rrf_k = 60`, for any two rankings of the same 3-document corpus, a document
ranked 1st in both rankings gets a strictly greater fused score than a
document ranked 2nd in both. -/
theorem C8_rrf_rank1_beats_rank2 (r1 r2 : List String) (a b : String)
    (_hr1 : r1.length = 3) (_hr2 : r2.length = 3)
    (h1a : r1.findIdx? (fun d => d = a) = some 0)
    (h2a : r2.findIdx? (fun d => d = a) = some 0)
    (h1b : r1.findIdx? (fun d => d = b) = some 1)
    (h2b : r2.findIdx? (fun d => d = b) = some 1) :
    rrfScore 60 [(r1, 2), (r2, 1)] b < rrfScore 60 [(r1, 2), (r2, 1)] a := by
  unfold rrfScore
  simp only [List.map_cons, List.map_nil, List.sum_cons, List.sum_nil,
    h1a, h2a, h1b, h2b]
  norm_num

/-- C8 witness: identical concrete rankings of a 3-document corpus. -/
theorem C8_rrf_rank1_beats_rank2_witness :
    rrfScore 60 [(["D1", "D2", "D3"], 2), (["D1", "D2", "D3"], 1)] "D2" <
      rrfScore 60 [(["D1", "D2", "D3"], 2), (["D1", "D2", "D3"], 1)] "D1" :=
  C8_rrf_rank1_beats_rank2 ["D1", "D2", "D3"] ["D1", "D2", "D3"] "D1" "D2"
    (by decide) (by decide) (by decide) (by decide) (by decide) (by decide)

/-! ### C10 -/

/-- C10: when the corpus is strictly larger than `top_k` and
`use_full_content` is off, `retrieve` returns exactly the first components of
`retrieve_with_scores` on the same inputs — both run the same descending
arg-sort truncated to `top_k`, and their failure fallbacks project to the
same list. (`retrieve_with_scores` lacks the small-corpus shortcut, hence the
size precondition.) -/
theorem C10_retrieve_refines_retrieve_with_scores (dr : DocumentRetriever)
    (scorer : List (List String) → List String → Option (List ℚ))
    (event : String) (title_snippet documents : List String)
    (hk : dr.top_k < documents.length)
    (hufc : dr.use_full_content = false) :
    dr.retrieve scorer event title_snippet documents =
      (dr.retrieve_with_scores scorer event title_snippet documents).map
        Prod.fst := by
  have hne : ¬ documents.isEmpty = true := by
    cases documents with
    | nil => simp at hk
    | cons d ds => simp
  unfold DocumentRetriever.retrieve DocumentRetriever.retrieve_with_scores
  rw [if_neg hne, if_neg hne, if_neg (not_le.mpr hk)]
  simp only [hufc, Bool.false_eq_true, if_false]
  cases scorer (title_snippet.map tokenizePy) (tokenizePy event) with
  | none => simp [List.map_map, Function.comp_def]
  | some scores => simp [List.map_map, Function.comp_def]

/-- C10 witness: a 2-document corpus with `top_k = 1`. -/
theorem C10_retrieve_refines_retrieve_with_scores_witness :
    DocumentRetriever.retrieve ⟨1, false⟩ (fun _ _ => some [1, 2]) "ev"
      ["s1", "s2"] ["a", "b"] =
      (DocumentRetriever.retrieve_with_scores ⟨1, false⟩
        (fun _ _ => some [1, 2]) "ev" ["s1", "s2"] ["a", "b"]).map Prod.fst :=
  C10_retrieve_refines_retrieve_with_scores ⟨1, false⟩ (fun _ _ => some [1, 2])
    "ev" ["s1", "s2"] ["a", "b"] (by decide) rfl

/-! ### C6 -/

theorem pySplitSpaceAux_ne_nil : ∀ l : List Char, pySplitSpaceAux l ≠ []
  | [] => by simp [pySplitSpaceAux]
  | c :: cs => by
    unfold pySplitSpaceAux
    cases h : pySplitSpaceAux cs with
    | nil => simp
    | cons t ts => by_cases hc : c = ' ' <;> simp [hc]

/-- Unfolding equation for `pySplitSpaceAux` on a cons cell, given the split
of the tail. -/
theorem pySplitSpaceAux_cons (c : Char) (cs t : List Char)
    (ts : List (List Char)) (h : pySplitSpaceAux cs = t :: ts) :
    pySplitSpaceAux (c :: cs) =
      if c = ' ' then [] :: t :: ts else (c :: t) :: ts := by
  unfold pySplitSpaceAux
  rw [h]

/-- Joining the pieces of `pySplitSpaceAux` with single spaces recovers the
input: the split is exactly the single-space decomposition. -/
theorem joinSpaceChars_pySplitSpaceAux : ∀ l : List Char,
    joinSpaceChars (pySplitSpaceAux l) = l
  | [] => rfl
  | c :: cs => by
    cases h : pySplitSpaceAux cs with
    | nil => exact absurd h (pySplitSpaceAux_ne_nil cs)
    | cons t ts =>
      have ih : joinSpaceChars (t :: ts) = cs := by
        rw [← h]; exact joinSpaceChars_pySplitSpaceAux cs
      rw [pySplitSpaceAux_cons c cs t ts h]
      by_cases hc : c = ' '
      · subst hc
        rw [if_pos rfl]
        show List.nil ++ ' ' :: joinSpaceChars (t :: ts) = ' ' :: cs
        rw [ih]; rfl
      · rw [if_neg hc]
        cases ts with
        | nil =>
          have ht : t = cs := ih
          show c :: t = c :: cs
          rw [ht]
        | cons t' ts' =>
          show (c :: t) ++ ' ' :: joinSpaceChars (t' :: ts') = c :: cs
          have ht : t ++ ' ' :: joinSpaceChars (t' :: ts') = cs := ih
          rw [List.cons_append, ht]

/-- No piece produced by `pySplitSpaceAux` contains a space. -/
theorem not_space_mem_pySplitSpaceAux : ∀ (l : List Char) (t : List Char),
    t ∈ pySplitSpaceAux l → ' ' ∉ t
  | [], t, ht => by
    simp only [pySplitSpaceAux, List.mem_singleton] at ht
    subst ht; simp
  | c :: cs, t, ht => by
    cases h : pySplitSpaceAux cs with
    | nil => exact absurd h (pySplitSpaceAux_ne_nil cs)
    | cons t' ts =>
      rw [pySplitSpaceAux_cons c cs t' ts h] at ht
      by_cases hc : c = ' '
      · rw [if_pos hc] at ht
        rcases List.mem_cons.mp ht with h1 | h1
        · subst h1; simp
        · exact not_space_mem_pySplitSpaceAux cs t (h ▸ h1)
      · rw [if_neg hc] at ht
        rcases List.mem_cons.mp ht with h1 | h1
        · subst h1
          intro hmem
          rcases List.mem_cons.mp hmem with h2 | h2
          · exact hc h2.symm
          · exact not_space_mem_pySplitSpaceAux cs t'
              (h ▸ List.mem_cons_self t' ts) h2
        · exact not_space_mem_pySplitSpaceAux cs t
            (h ▸ List.mem_cons_of_mem t' h1)

/-- C6 counterexample: the source tokenizes with `.lower().split(" ")`, which
is not maximal-non-whitespace-run splitting: two spaces produce an empty
token, a tab is not a delimiter at all, and strings differing only in the
amount of whitespace tokenize differently. -/
theorem C6_counterexample :
    tokenizePy "a  b" = ["a", "", "b"] ∧
    tokenizeSpec "a  b" = ["a", "b"] ∧
    tokenizePy "a  b" ≠ tokenizePy "a b" ∧
    tokenizePy "a\tb" = ["a\tb"] ∧ tokenizeSpec "a\tb" = ["a", "b"] :=
  ⟨by decide, by decide, by decide, by decide, by decide⟩

/-- C6 amended: the token list fed to BM25 is the lower-cased input split on
*single space characters* (not on whitespace runs): no token contains a
space, and re-joining the tokens with single spaces recovers exactly the
lower-cased string — so consecutive spaces yield empty tokens and
tabs/newlines are never delimiters. -/
theorem C6_tokenize_splits_on_single_spaces (s : String) :
    (∀ t ∈ tokenizePy s, ' ' ∉ t.toList) ∧
    List.asString (joinSpaceChars ((tokenizePy s).map String.toList)) =
      pyLower s := by
  have hmap : (tokenizePy s).map String.toList =
      pySplitSpaceAux (pyLower s).toList := by
    unfold tokenizePy pySplitSpace
    rw [List.map_map]
    have hco : (String.toList ∘ List.asString) = id := rfl
    rw [hco, List.map_id]
  constructor
  · intro t ht
    have ht' : t ∈ (pySplitSpaceAux (pyLower s).toList).map List.asString := ht
    obtain ⟨t', hmem, rfl⟩ := List.mem_map.mp ht'
    intro hsp
    exact not_space_mem_pySplitSpaceAux _ t' hmem hsp
  · rw [hmap, joinSpaceChars_pySplitSpaceAux, String.asString_toList]

/-! ### C3 -/

theorem getD_mem_of_lt (l : List String) (i : ℕ) (h : i < l.length) :
    l.getD i "" ∈ l := by
  rw [List.getD_eq_getElem _ _ h]
  exact List.getElem_mem h

/-- Shape of `rankCore`: the result is a duplicate-free list of corpus
positions mapped back to documents, of length `min k |corpus|`. -/
theorem rankCore_shape (k : ℕ) (documents : List String)
    (scoresOpt : Option (List ℚ))
    (hs : ∀ s, scoresOpt = some s → s.length = documents.length) :
    ∃ idxs : List ℕ, idxs.Nodup ∧ (∀ i ∈ idxs, i < documents.length) ∧
      rankCore k documents scoresOpt = idxs.map (fun i => documents.getD i "") ∧
      (rankCore k documents scoresOpt).length = min k documents.length := by
  unfold rankCore
  by_cases he : documents.isEmpty
  · have hd : documents = [] := List.isEmpty_iff.mp he
    rw [if_pos he]
    exact ⟨[], List.nodup_nil, by simp, by simp, by simp [hd]⟩
  · rw [if_neg he]
    by_cases hl : documents.length ≤ k
    · rw [if_pos hl]
      refine ⟨List.range documents.length, List.nodup_range _, ?_, ?_, ?_⟩
      · intro i hi; exact List.mem_range.mp hi
      · rw [map_getD_range _ _ le_rfl, List.take_of_length_le le_rfl]
      · rw [Nat.min_eq_right hl]
    · rw [if_neg hl]
      have hk : k ≤ documents.length := le_of_lt (not_le.mp hl)
      cases scoresOpt with
      | none =>
        refine ⟨List.range k, List.nodup_range _, ?_, ?_, ?_⟩
        · intro i hi; exact lt_of_lt_of_le (List.mem_range.mp hi) hk
        · rw [map_getD_range _ _ hk]
        · rw [List.length_take]
      | some scores =>
        have hsl : scores.length = documents.length := hs scores rfl
        refine ⟨(argsortDesc scores).take k, ?_, ?_, rfl, ?_⟩
        · exact (List.take_sublist _ _).nodup (argsortDesc_nodup scores)
        · intro i hi
          have hmem : i ∈ argsortDesc scores := List.mem_of_mem_take hi
          rw [mem_argsortDesc, hsl] at hmem
          exact hmem
        · rw [List.length_map, List.length_take, length_argsortDesc, hsl]

/-- C3: under the spec's alignment precondition (short texts parallel to the
corpus; the external scorer returns one score per indexed text), the list
returned by `retrieve` consists of corpus documents selected at
duplicate-free corpus positions (no fabricated documents, each corpus entry
used at most once) and has length `min top_k |corpus|` — for both the lexical
and the semantic retriever. -/
theorem C3_result_shape (dr : DocumentRetriever) (sr : SemanticRetriever)
    (scorer : List (List String) → List String → Option (List ℚ))
    (sim : List String → String → Option (List ℚ))
    (event : String) (title_snippet documents : List String)
    (hlen : title_snippet.length = documents.length)
    (hscorer : ∀ tt te s, scorer tt te = some s → s.length = tt.length)
    (hsim : ∀ tx e s, sim tx e = some s → s.length = tx.length) :
    ((∃ idxs : List ℕ, idxs.Nodup ∧ (∀ i ∈ idxs, i < documents.length) ∧
        dr.retrieve scorer event title_snippet documents =
          idxs.map (fun i => documents.getD i "")) ∧
      (dr.retrieve scorer event title_snippet documents).length =
        min dr.top_k documents.length ∧
      ∀ d ∈ dr.retrieve scorer event title_snippet documents, d ∈ documents) ∧
    ((∃ idxs : List ℕ, idxs.Nodup ∧ (∀ i ∈ idxs, i < documents.length) ∧
        sr.retrieve sim event title_snippet documents =
          idxs.map (fun i => documents.getD i "")) ∧
      (sr.retrieve sim event title_snippet documents).length =
        min sr.top_k documents.length ∧
      ∀ d ∈ sr.retrieve sim event title_snippet documents, d ∈ documents) := by
  have hdr : dr.retrieve scorer event title_snippet documents =
      rankCore dr.top_k documents
        (scorer ((if dr.use_full_content then documents
            else title_snippet).map tokenizePy) (tokenizePy event)) := rfl
  have hsr : sr.retrieve sim event title_snippet documents =
      rankCore sr.top_k documents
        (sim (if sr.use_full_content then documents else title_snippet)
          event) := rfl
  have hs1 : ∀ s, scorer ((if dr.use_full_content then documents
      else title_snippet).map tokenizePy) (tokenizePy event) = some s →
      s.length = documents.length := by
    intro s hsome
    rw [hscorer _ _ s hsome, List.length_map]
    cases dr.use_full_content <;> simp [hlen]
  have hs2 : ∀ s, sim (if sr.use_full_content then documents
      else title_snippet) event = some s → s.length = documents.length := by
    intro s hsome
    rw [hsim _ _ s hsome]
    cases sr.use_full_content <;> simp [hlen]
  obtain ⟨idxs1, hn1, hb1, hr1, hl1⟩ := rankCore_shape dr.top_k documents _ hs1
  obtain ⟨idxs2, hn2, hb2, hr2, hl2⟩ := rankCore_shape sr.top_k documents _ hs2
  refine ⟨⟨⟨idxs1, hn1, hb1, hdr.trans hr1⟩, hdr ▸ hl1, ?_⟩,
          ⟨idxs2, hn2, hb2, hsr.trans hr2⟩, hsr ▸ hl2, ?_⟩
  · intro d hd
    rw [hdr.trans hr1] at hd
    obtain ⟨i, hi, rfl⟩ := List.mem_map.mp hd
    exact getD_mem_of_lt documents i (hb1 i hi)
  · intro d hd
    rw [hsr.trans hr2] at hd
    obtain ⟨i, hi, rfl⟩ := List.mem_map.mp hd
    exact getD_mem_of_lt documents i (hb2 i hi)

/-- C3 witness: concrete 3-document corpus, `top_k = 2`, scorers returning
one score per text. -/
theorem C3_result_shape_witness :
    (DocumentRetriever.retrieve ⟨2, false⟩
        (fun tt _ => some (tt.map (fun _ => (0 : ℚ)))) "ev"
        ["u1", "u2", "u3"] ["a", "b", "c"]).length = min 2 3 ∧
    ∀ d ∈ DocumentRetriever.retrieve ⟨2, false⟩
        (fun tt _ => some (tt.map (fun _ => (0 : ℚ)))) "ev"
        ["u1", "u2", "u3"] ["a", "b", "c"], d ∈ ["a", "b", "c"] := by
  have h := C3_result_shape ⟨2, false⟩ ⟨2, false⟩
    (fun tt _ => some (tt.map (fun _ => (0 : ℚ))))
    (fun tx _ => some (tx.map (fun _ => (0 : ℚ)))) "ev"
    ["u1", "u2", "u3"] ["a", "b", "c"] (by decide)
    (fun tt te s hsome => by cases hsome; simp)
    (fun tx e s hsome => by cases hsome; simp)
  exact ⟨h.1.2.1, h.1.2.2⟩

/-! ### C9 -/

/-- `argsortAsc` equals any sorted permutation of the index range (the
sortedness order `argLE` is a linear order, so the sorted permutation is
unique). -/
theorem argsortAsc_eq_of_sorted (scores : List ℚ) (l : List ℕ)
    (hp : List.Perm l (List.range scores.length))
    (hs : List.Sorted (argLE scores) l) :
    argsortAsc scores = l :=
  List.eq_of_perm_of_sorted ((argsortAsc_perm scores).trans hp.symm)
    (List.sorted_insertionSort _ _) hs

/-- On strictly decreasing scores the descending argsort is the identity
ranking `0, …, n-1`. -/
theorem argsortDesc_of_strict_decreasing (scores : List ℚ)
    (hdec : ∀ i j, i < j → j < scores.length →
      scores.getD j 0 < scores.getD i 0) :
    argsortDesc scores = List.range scores.length := by
  have hasc : argsortAsc scores = (List.range scores.length).reverse := by
    apply argsortAsc_eq_of_sorted
    · exact List.reverse_perm _
    · rw [List.Sorted, List.pairwise_reverse, List.pairwise_iff_getElem]
      intro i j hi hj hij
      have hi' : i < scores.length := by simpa using hi
      have hj' : j < scores.length := by simpa using hj
      rw [List.getElem_range, List.getElem_range]
      exact Or.inl (hdec i j hij hj')
  rw [argsortDesc, hasc, List.reverse_reverse]

/-- C9: once constructed, both retrievers are total — the entire scoring body
is guarded, and on failure the caller receives the first `top_k` documents in
corpus order, a plain document list rather than a distinguished failure
value; indeed a successful scorer (one with strictly decreasing scores)
produces the very same output, so the caller cannot distinguish the degraded
result from a genuine ranking. -/
theorem C9_total_silent_fallback (dr : DocumentRetriever)
    (sr : SemanticRetriever) (event : String)
    (title_snippet documents : List String) :
    dr.retrieve (fun _ _ => none) event title_snippet documents =
      documents.take dr.top_k ∧
    sr.retrieve (fun _ _ => none) event title_snippet documents =
      documents.take sr.top_k ∧
    ∃ scores : List ℚ,
      dr.retrieve (fun _ _ => some scores) event title_snippet documents =
        documents.take dr.top_k := by
  refine ⟨doc_retrieve_none dr event title_snippet documents,
          sem_retrieve_none sr event title_snippet documents, ?_⟩
  set n := documents.length with hn
  refine ⟨(List.range n).map (fun i => ((n - i : ℕ) : ℚ)), ?_⟩
  set scores := (List.range n).map (fun i => ((n - i : ℕ) : ℚ)) with hscores
  have hslen : scores.length = n := by simp [hscores]
  have hget : ∀ i, i < n → scores.getD i 0 = ((n - i : ℕ) : ℚ) := by
    intro i hi
    have hi' : i < scores.length := by rw [hslen]; exact hi
    rw [List.getD_eq_getElem _ _ hi']
    simp [hscores]
  have hdec : ∀ i j, i < j → j < scores.length →
      scores.getD j 0 < scores.getD i 0 := by
    intro i j hij hj
    rw [hslen] at hj
    rw [hget j hj, hget i (lt_trans hij hj)]
    have hsub : n - j < n - i := by omega
    exact_mod_cast hsub
  have hsort : argsortDesc scores = List.range n := by
    rw [argsortDesc_of_strict_decreasing scores hdec, hslen]
  unfold DocumentRetriever.retrieve
  by_cases he : documents.isEmpty
  · rw [if_pos he]
    have hd : documents = [] := List.isEmpty_iff.mp he
    simp [hd]
  · rw [if_neg he]
    by_cases hl : documents.length ≤ dr.top_k
    · rw [if_pos hl, List.take_of_length_le hl]
    · rw [if_neg hl]
      have hk : dr.top_k ≤ n := le_of_lt (not_le.mp hl)
      show ((argsortDesc scores).take dr.top_k).map
          (fun i => documents.getD i "") = documents.take dr.top_k
      rw [hsort, List.take_range, Nat.min_eq_left hk, map_getD_range _ _ hk]
